import Mathlib

/-!
Verification development for the custom DHCP server in
`src/iotcraft-gateway/main/esp32-dhcp-server.c`.

Shallow embedding conventions:
* Bytes are `Nat` values (the C code only ever compares them against
  constants below 256 and copies them around).
* A 32-bit address (`uint32_t` in network byte order in the C code) is
  represented by its host-order numeric value, a `Nat` below `2 ^ 32`.
  This renaming is a bijection on machine words; it preserves equality,
  the `ip == 0` emptiness test (`0.0.0.0` maps to `0` in either byte
  order), and turns the cursor update `htonl(ntohl(c) + 1)` into
  `(c + 1) % 2 ^ 32`.
* A MAC address is a list of 6 byte values; `memcmp(a, b, 6)` becomes
  list equality.
* Fixed C arrays become lists (`dynamic_leases[32]` becomes a 32-element
  list), and the `for` loops that scan them become structural recursion
  in the same order.
-/

/-! ## Option codec (`get_dhcp_message_type`, lines 281-305)

The C function walks TLV entries of the options buffer.  The buffer is
modelled as a `List Nat` holding the bytes of the underlying
`options[312]` array (which may extend past the declared valid length
`length`); `List.getD buf i 0` models the memory read `options[i]`.
The `while (i < length)` loop is given as fuel-indexed structural
recursion: each iteration advances `i` by at least one, so any fuel
of at least `length` iterations is enough and the fuel never runs out
when started with `fuel = length` (the loop body runs at most
`length - 4` times). -/

/-- One iteration of the option-walking loop of `get_dhcp_message_type`
(lines 292-303).  Returns the C function's `int` result: the value of
option 53 if found with declared length exactly 1, `-1` otherwise. -/
def dhcpOptLoop (options : List Nat) (length : Nat) : Nat → Nat → Int
  | _, 0 => -1
  | i, fuel + 1 =>
    if i < length then
      let option_type := options.getD i 0
      if option_type = 255 then -1
      else if option_type = 0 then dhcpOptLoop options length (i + 1) fuel
      else if length ≤ i + 1 then -1
      else
        let option_len := options.getD (i + 1) 0
        if option_type = 53 ∧ option_len = 1 then (options.getD (i + 2) 0 : Int)
        else dhcpOptLoop options length (i + 2 + option_len) fuel
    else -1

/-- `get_dhcp_message_type` (lines 281-305): parse DHCP option 53 out of
an options buffer with declared valid length `length`; `-1` is the
"not found" sentinel. -/
def get_dhcp_message_type (options : List Nat) (length : Nat) : Int :=
  if length < 4 then -1
  else if ¬(options.getD 0 0 = 0x63 ∧ options.getD 1 0 = 0x82 ∧
            options.getD 2 0 = 0x53 ∧ options.getD 3 0 = 0x63) then -1
  else dhcpOptLoop options length 4 length

/-! ## Reservation table (lines 39-45, 206-220) -/

/-- `dhcp_reservation_t` (lines 39-42): client MAC and reserved IP. -/
structure DhcpReservation where
  mac : List Nat
  reserved_ip : Nat
deriving DecidableEq

/-- `get_reserved_ip_for_client` (lines 206-220): linear scan of the
reservation table, first 6-byte MAC match wins; `0` (that is,
`0.0.0.0`) when no entry matches. -/
def get_reserved_ip_for_client (table : List DhcpReservation) (client_mac : List Nat) : Nat :=
  match table.find? (fun r => r.mac == client_mac) with
  | some r => r.reserved_ip
  | none => 0

/-! ## Dynamic lease table (lines 222-253) -/

/-- `dynamic_lease_t` (lines 223-226): client MAC and lease IP,
`ip = 0` denoting an unused slot. -/
structure DynamicLease where
  mac : List Nat
  ip : Nat
deriving DecidableEq

/-- The all-zero entry of the zero-initialised
`dynamic_leases[MAX_DYNAMIC_LEASES]` array (line 228). -/
def emptyLease : DynamicLease :=
  { mac := [0, 0, 0, 0, 0, 0], ip := 0 }

/-- Initial contents of `dynamic_leases` (line 228): 32 zeroed slots. -/
def leases0 : List DynamicLease :=
  List.replicate 32 emptyLease

/-- `get_dynamic_lease` (lines 230-237): return the `ip` of the first
slot whose MAC matches, `0` if none does. -/
def get_dynamic_lease (leases : List DynamicLease) (client_mac : List Nat) : Nat :=
  match leases.find? (fun e => e.mac == client_mac) with
  | some e => e.ip
  | none => 0

/-- First loop of `set_dynamic_lease` (lines 240-245): overwrite the
`ip` of the first slot whose MAC matches. -/
def setMacIp : List DynamicLease → List Nat → Nat → List DynamicLease
  | [], _, _ => []
  | e :: es, mac, ip =>
    if e.mac = mac then { e with ip := ip } :: es
    else e :: setMacIp es mac ip

/-- Second loop of `set_dynamic_lease` (lines 246-252): write MAC and
`ip` into the first empty (`ip = 0`) slot.  When no empty slot exists
the C loop falls off the end and the function returns without storing
anything. -/
def fillFirstEmpty : List DynamicLease → List Nat → Nat → List DynamicLease
  | [], _, _ => []
  | e :: es, mac, ip =>
    if e.ip = 0 then { mac := mac, ip := ip } :: es
    else e :: fillFirstEmpty es mac ip

/-- `set_dynamic_lease` (lines 239-253): update the first MAC-matching
slot if one exists, else fill the first empty slot, else do nothing. -/
def set_dynamic_lease (leases : List DynamicLease) (client_mac : List Nat) (ip : Nat) :
    List DynamicLease :=
  if leases.any (fun e => e.mac == client_mac) then setMacIp leases client_mac ip
  else fillFirstEmpty leases client_mac ip

/-! ## Server state and address resolution (lines 370-371, 508-519, 627-628) -/

/-- `2 ^ 32`, the modulus of `uint32_t` arithmetic. -/
def M32 : Nat := 4294967296

/-- Host-order value of `inet_addr("192.168.4.2")`, the seed of
`dynamic_ip_current` (line 628): `0xC0A80402`. -/
def DHCP_DYNAMIC_START : Nat := 3232236546

/-- The mutable server state touched by one receive/reply cycle:
the reservation table, the dynamic lease table and the dynamic IP
cursor `dynamic_ip_current`. -/
structure ServerState where
  reservations : List DhcpReservation
  leases : List DynamicLease
  cursor : Nat
deriving DecidableEq

/-- The startup state of the server task: reservations as loaded (here
the empty table unless stated otherwise), zeroed dynamic leases, cursor
seeded at `192.168.4.2`. -/
def s0 : ServerState :=
  { reservations := [], leases := leases0, cursor := DHCP_DYNAMIC_START }

/-- Address resolution for one client MAC, lines 508-518 of
`dhcp_server_task`: reservations first, then an existing dynamic lease,
else mint the cursor value, record it and advance the cursor
(`dynamic_ip_current = htonl(ntohl(dynamic_ip_current) + 1)`). -/
def resolve (s : ServerState) (client_mac : List Nat) : Nat × ServerState :=
  let reserved := get_reserved_ip_for_client s.reservations client_mac
  if reserved ≠ 0 then (reserved, s)
  else
    let offered := get_dynamic_lease s.leases client_mac
    if offered ≠ 0 then (offered, s)
    else
      let offered := s.cursor
      let leases := set_dynamic_lease s.leases client_mac offered
      (offered, { s with leases := leases, cursor := (s.cursor + 1) % M32 })

/-- Run a sequence of resolutions (successive loop iterations of
`dhcp_server_task`, keeping only the lease-engine part). -/
def runMacs (s : ServerState) : List (List Nat) → ServerState
  | [] => s
  | m :: ms => runMacs (resolve s m).2 ms

/-- The addresses offered along a sequence of resolutions, in order. -/
def offeredSeq (s : ServerState) : List (List Nat) → List Nat
  | [] => []
  | m :: ms => (resolve s m).1 :: offeredSeq (resolve s m).2 ms

/-- A resolution step is a *mint* when neither a (non-zero) reservation
nor a (non-zero) dynamic lease exists for the MAC — the case in which
lines 515-517 run. -/
def isMint (s : ServerState) (client_mac : List Nat) : Prop :=
  get_reserved_ip_for_client s.reservations client_mac = 0 ∧
  get_dynamic_lease s.leases client_mac = 0

instance (s : ServerState) (m : List Nat) : Decidable (isMint s m) := by
  unfold isMint; infer_instance

/-- Number of mint steps performed along a sequence of resolutions. -/
def mintCount (s : ServerState) : List (List Nat) → Nat
  | [] => 0
  | m :: ms => (if isMint s m then 1 else 0) + mintCount (resolve s m).2 ms

/-- The cursor values handed out at mint steps, in order. -/
def mintedValues (s : ServerState) : List (List Nat) → List Nat
  | [] => []
  | m :: ms =>
    if isMint s m then (resolve s m).1 :: mintedValues (resolve s m).2 ms
    else mintedValues (resolve s m).2 ms

/-! ## DHCP packets and the reply builder (lines 256-272, 308-368) -/

/-- `dhcp_packet_t` (lines 256-272).  Multi-byte header fields are kept
as numeric values (see the conventions above); `chaddr`, `sname`,
`file` and `options` are byte lists standing for the fixed arrays
`chaddr[16]`, `sname[64]`, `file[128]`, `options[312]`. -/
structure DhcpPacket where
  op : Nat
  htype : Nat
  hlen : Nat
  hops : Nat
  xid : Nat
  secs : Nat
  flags : Nat
  ciaddr : Nat
  yiaddr : Nat
  siaddr : Nat
  giaddr : Nat
  chaddr : List Nat
  sname : List Nat
  file : List Nat
  options : List Nat
deriving DecidableEq

/-- The four bytes that `memcpy(opt, &x, 4)` writes for a 32-bit value
`x` produced by `htonl` (big-endian byte order). -/
def be32 (n : Nat) : List Nat :=
  [n / 16777216 % 256, n / 65536 % 256, n / 256 % 256, n % 256]

/-- The four bytes in memory of a value produced by
`inet_addr("a.b.c.d")` (network byte order). -/
def ipBytes (a b c d : Nat) : List Nat :=
  [a, b, c, d]

/-- The options area written by `build_dhcp_reply` (lines 324-364):
magic cookie, then option 61 echoing the first 6 `chaddr` bytes, 53,
54 (gateway `192.168.4.1`), 51 (3600 s), 58 (1800 s), 59 (3150 s),
1 (`255.255.255.0`), 3 (gateway), 6 (`8.8.8.8`), end marker 255. -/
def replyOptions (chaddr6 : List Nat) (dhcp_msg_type : Nat) : List Nat :=
  [0x63, 0x82, 0x53, 0x63] ++
  ([61, 7, 1] ++ chaddr6) ++
  [53, 1, dhcp_msg_type] ++
  ([54, 4] ++ ipBytes 192 168 4 1) ++
  ([51, 4] ++ be32 3600) ++
  ([58, 4] ++ be32 1800) ++
  ([59, 4] ++ be32 3150) ++
  ([1, 4] ++ ipBytes 255 255 255 0) ++
  ([3, 4] ++ ipBytes 192 168 4 1) ++
  ([6, 4] ++ ipBytes 8 8 8 8) ++
  [255]

/-- Host-order value of `inet_addr("192.168.4.1")`, the gateway and
server identifier address. -/
def GATEWAY_IP : Nat := 3232236545

/-- `build_dhcp_reply` (lines 308-368), the built packet.  `memcpy` of
the 16-byte `chaddr` becomes copying the whole field. -/
def build_dhcp_reply (request : DhcpPacket) (offered_ip : Nat) (dhcp_msg_type : Nat) :
    DhcpPacket :=
  { op := 2
    htype := request.htype
    hlen := request.hlen
    hops := 0
    xid := request.xid
    secs := 0
    flags := request.flags
    ciaddr := 0
    yiaddr := offered_ip
    siaddr := GATEWAY_IP
    giaddr := 0
    chaddr := request.chaddr
    sname := List.replicate 64 0
    file := List.replicate 128 0
    options := replyOptions (request.chaddr.take 6) dhcp_msg_type }

/-- The length returned by `build_dhcp_reply` (line 367):
`236 + options_len`. -/
def build_dhcp_reply_len (request : DhcpPacket) (dhcp_msg_type : Nat) : Nat :=
  236 + (replyOptions (request.chaddr.take 6) dhcp_msg_type).length

/-! ## One iteration of the server loop (lines 485-531)

`handle_packet` models the per-datagram processing: length check,
message-type decode, address resolution, reply building, the forced
broadcast flag and the 300-byte length floor.  `none` models `continue`
(packet dropped, no reply); `some (reply, reply_len, offered_ip, s)`
models the transmitted reply and the successor state. -/
def handle_packet (s : ServerState) (len : Nat) (packet : DhcpPacket) :
    Option (DhcpPacket × Nat × Nat × ServerState) :=
  if len < 236 then none
  else
    let req_options_len := len - 236
    let msg_type := get_dhcp_message_type packet.options req_options_len
    if msg_type < 0 then none
    else
      let client_mac := packet.chaddr.take 6
      let rs := resolve s client_mac
      let reply_type : Nat := if msg_type = 1 then 2 else 5
      let reply := build_dhcp_reply packet rs.1 reply_type
      let reply_len := build_dhcp_reply_len packet reply_type
      let reply := { reply with flags := 0x8000 }
      let reply_len := if reply_len < 300 then 300 else reply_len
      some (reply, reply_len, rs.1, rs.2)

/-! ## Loading reservations (`load_dhcp_reservations`, lines 151-203)

The JSON and string parsing done by `cJSON`, `sscanf`
(`parse_mac_string`) and `inet_aton` happens in external library code;
an input record carries the outcome of those parses: `some` a 6-byte
MAC / address value, or `none` for a malformed field (such entries are
skipped with a logged error, lines 193-198).  The loading loop itself
(lines 177-200) is modelled faithfully: stop at capacity
`MAX_RESERVATIONS = 10`, append each well-formed entry in order. -/
structure ResvInput where
  mac : Option (List Nat)
  ip : Option Nat
deriving DecidableEq

/-- The `cJSON_ArrayForEach` loop of `load_dhcp_reservations` with
`cap` remaining free slots. -/
def loadResvLoop : List ResvInput → Nat → List DhcpReservation
  | [], _ => []
  | e :: es, cap =>
    if cap = 0 then []
    else
      match e.mac, e.ip with
      | some m, some i => { mac := m, reserved_ip := i } :: loadResvLoop es (cap - 1)
      | _, _ => loadResvLoop es cap

/-- `load_dhcp_reservations` (lines 151-203): rebuild the reservation
table (`reservation_count = 0`, line 177) from the parsed entries. -/
def load_dhcp_reservations (input : List ResvInput) : List DhcpReservation :=
  loadResvLoop input 10

/-! ## Concrete client populations used in counterexamples -/

/-- A family of pairwise distinct client MACs: `macOf k` encodes `k`
(below `2 ^ 40`) in the trailing five bytes, with a leading `1` so that
no `macOf k` collides with the all-zero MAC of an empty slot. -/
def macOf (k : Nat) : List Nat :=
  [1, k / 4294967296 % 256, k / 16777216 % 256, k / 65536 % 256, k / 256 % 256, k % 256]

/-- The first 32 client MACs, enough to fill the dynamic lease table. -/
def seq32 : List (List Nat) :=
  (List.range 32).map macOf

/-- The dynamic lease table after the 32 clients of `seq32` have been
served from the startup state: slot `j` holds `macOf j` with address
`DHCP_DYNAMIC_START + j`. -/
def L32 : List DynamicLease :=
  (List.range 32).map fun j => { mac := macOf j, ip := DHCP_DYNAMIC_START + j }

/-- A server state with a full dynamic lease table, reached from `s0`
by serving the 32 clients of `seq32`. -/
def sFull : ServerState :=
  { reservations := [], leases := L32, cursor := DHCP_DYNAMIC_START + 32 }

/-- How many further fresh clients it takes, starting from `sFull`,
until the 32-bit cursor wraps around: the offer at relative step
`wrapSteps - 2` is `2 ^ 32 - 1` and the one at `wrapSteps - 1` is `0`. -/
def wrapSteps : Nat := 1062730719

/-- A run long enough to wrap the dynamic cursor: `32 + wrapSteps`
pairwise distinct fresh clients. -/
def bigSeq : List (List Nat) :=
  (List.range (32 + wrapSteps)).map macOf

/-! ## Reachability invariant of the lease engine

`InvK s k` describes every state reachable from `s0` after exactly `k`
mint steps: the lease table consists of a prefix of live slots — filled
in order, holding pairwise distinct MACs and the consecutive addresses
`DHCP_DYNAMIC_START, DHCP_DYNAMIC_START + 1, …` — followed by untouched
all-zero slots, and the cursor has been advanced `k` times modulo
`2 ^ 32`.  Only the first 32 mints find a free slot, so the live prefix
length is `min k 32`. -/
def InvK (s : ServerState) (k : Nat) : Prop :=
  s.reservations = [] ∧
  ∃ live : List DynamicLease,
    live.length = min k 32 ∧
    live.map (fun e => e.ip) = List.range' DHCP_DYNAMIC_START live.length ∧
    (live.map fun e => e.mac).Nodup ∧
    s.cursor = (DHCP_DYNAMIC_START + k) % M32 ∧
    s.leases = live ++ List.replicate (32 - live.length) emptyLease

/-! ## Concrete inputs used by witnesses and counterexamples -/

/-- A client MAC with a reservation entry whose address is `0.0.0.0`. -/
def macR : List Nat := [170, 187, 204, 221, 238, 2]

/-- A state whose reservation table binds `macR` to `0.0.0.0`. -/
def sZeroResv : ServerState :=
  { reservations := [{ mac := macR, reserved_ip := 0 }],
    leases := leases0, cursor := DHCP_DYNAMIC_START }

/-- A MAC appearing twice in a reservation input list. -/
def macD : List Nat := [170, 187, 204, 221, 238, 3]

/-- A reservation input carrying two well-formed entries with the same
MAC and different addresses. -/
def dupInput : List ResvInput :=
  [{ mac := some macD, ip := some 3232236600 },
   { mac := some macD, ip := some 3232236700 }]

/-- The 33rd fresh client, arriving once the lease table is full. -/
def mac33 : List Nat := macOf 32

/-- A well-formed 243-byte DISCOVER datagram from a fresh client. -/
def pktW : DhcpPacket :=
  { op := 1, htype := 1, hlen := 6, hops := 0, xid := 42, secs := 0, flags := 0,
    ciaddr := 0, yiaddr := 0, siaddr := 0, giaddr := 0,
    chaddr := [170, 187, 204, 221, 238, 1, 0, 0, 0, 0, 0, 0, 0, 0, 0, 0],
    sname := List.replicate 64 0, file := List.replicate 128 0,
    options := [0x63, 0x82, 0x53, 0x63, 53, 1, 1] }

/-- The state after `s0` serves `pktW`: its MAC gets the first dynamic
address and the cursor advances. -/
def stateW : ServerState :=
  { reservations := [],
    leases := fillFirstEmpty leases0 [170, 187, 204, 221, 238, 1] 3232236546,
    cursor := 3232236547 }

/-- The reply transmitted for `pktW` from the startup state. -/
def replyW : DhcpPacket :=
  { op := 2, htype := 1, hlen := 6, hops := 0, xid := 42, secs := 0, flags := 0x8000,
    ciaddr := 0, yiaddr := 3232236546, siaddr := GATEWAY_IP, giaddr := 0,
    chaddr := pktW.chaddr, sname := List.replicate 64 0, file := List.replicate 128 0,
    options := replyOptions [170, 187, 204, 221, 238, 1] 2 }

/-! # Lemmas about the lease tables -/

theorem get_dynamic_lease_nil (m : List Nat) : get_dynamic_lease [] m = 0 := rfl

theorem get_dynamic_lease_cons (e : DynamicLease) (es : List DynamicLease) (m : List Nat) :
    get_dynamic_lease (e :: es) m =
      if e.mac = m then e.ip else get_dynamic_lease es m := by
  by_cases h : e.mac = m <;> simp [get_dynamic_lease, h]

theorem get_dynamic_lease_eq_zero (L : List DynamicLease) (m : List Nat)
    (h : ∀ e ∈ L, e.mac ≠ m) : get_dynamic_lease L m = 0 := by
  have hn : L.find? (fun e => e.mac == m) = none :=
    List.find?_eq_none.2 (by simpa using h)
  simp [get_dynamic_lease, hn]

theorem mac_ne_of_get_eq_zero (L : List DynamicLease) (m : List Nat)
    (hlive : ∀ e ∈ L, e.ip ≠ 0) (h : get_dynamic_lease L m = 0) :
    ∀ e ∈ L, e.mac ≠ m := by
  induction L with
  | nil => simp
  | cons e es ih =>
    rw [get_dynamic_lease_cons] at h
    by_cases hm : e.mac = m
    · rw [if_pos hm] at h
      exact absurd h (hlive e (by simp))
    · rw [if_neg hm] at h
      intro x hx
      rcases List.mem_cons.1 hx with rfl | hx
      · exact hm
      · exact ih (fun y hy => hlive y (List.mem_cons_of_mem _ hy)) h x hx

theorem setMacIp_append (A B : List DynamicLease) (m : List Nat) (ip : Nat)
    (h : ∀ e ∈ A, e.mac ≠ m) : setMacIp (A ++ B) m ip = A ++ setMacIp B m ip := by
  induction A with
  | nil => rfl
  | cons e es ih =>
    simp only [List.cons_append, setMacIp, if_neg (h e (by simp))]
    exact congrArg (List.cons e) (ih (fun x hx => h x (List.mem_cons_of_mem _ hx)))

theorem fillFirstEmpty_append (A B : List DynamicLease) (m : List Nat) (ip : Nat)
    (h : ∀ e ∈ A, e.ip ≠ 0) : fillFirstEmpty (A ++ B) m ip = A ++ fillFirstEmpty B m ip := by
  induction A with
  | nil => rfl
  | cons e es ih =>
    simp only [List.cons_append, fillFirstEmpty, if_neg (h e (by simp))]
    exact congrArg (List.cons e) (ih (fun x hx => h x (List.mem_cons_of_mem _ hx)))

theorem fillFirstEmpty_of_full (L : List DynamicLease) (m : List Nat) (ip : Nat)
    (h : ∀ e ∈ L, e.ip ≠ 0) : fillFirstEmpty L m ip = L := by
  induction L with
  | nil => rfl
  | cons e es ih =>
    simp only [fillFirstEmpty, if_neg (h e (by simp))]
    rw [ih (fun x hx => h x (List.mem_cons_of_mem _ hx))]

theorem any_mac_eq_false (L : List DynamicLease) (m : List Nat)
    (h : ∀ e ∈ L, e.mac ≠ m) : L.any (fun e => e.mac == m) = false := by
  simp only [List.any_eq_false]
  simpa using h

theorem set_dynamic_lease_full (L : List DynamicLease) (m : List Nat) (ip : Nat)
    (hm : ∀ e ∈ L, e.mac ≠ m) (hip : ∀ e ∈ L, e.ip ≠ 0) :
    set_dynamic_lease L m ip = L := by
  unfold set_dynamic_lease
  rw [any_mac_eq_false L m hm]
  simp [fillFirstEmpty_of_full L m ip hip]

theorem set_dynamic_lease_shape (A : List DynamicLease) (r : Nat) (m : List Nat) (ip : Nat)
    (hmac : ∀ e ∈ A, e.mac ≠ m) (hip : ∀ e ∈ A, e.ip ≠ 0) :
    set_dynamic_lease (A ++ List.replicate (r + 1) emptyLease) m ip =
      A ++ ({ mac := m, ip := ip } : DynamicLease) :: List.replicate r emptyLease := by
  rw [List.replicate_succ]
  unfold set_dynamic_lease
  by_cases hz : emptyLease.mac = m
  · have hany : (A ++ emptyLease :: List.replicate r emptyLease).any
        (fun e => e.mac == m) = true := by
      refine List.any_eq_true.2 ⟨emptyLease, ?_, by simpa using hz⟩
      exact List.mem_append_right _ (by simp)
    rw [hany, if_pos rfl, setMacIp_append A _ m ip hmac]
    simp only [setMacIp, if_pos hz]
    have : ({ emptyLease with ip := ip } : DynamicLease) = { mac := m, ip := ip } := by
      simp [emptyLease] at hz ⊢
      exact hz
    rw [this]
  · have hany : (A ++ emptyLease :: List.replicate r emptyLease).any
        (fun e => e.mac == m) = false := by
      refine any_mac_eq_false _ _ ?_
      intro e he
      rcases List.mem_append.1 he with he | he
      · exact hmac e he
      · rcases List.mem_cons.1 he with rfl | he
        · exact hz
        · rw [List.eq_of_mem_replicate he]; exact hz
    rw [hany]
    simp only [Bool.false_eq_true, if_false]
    rw [fillFirstEmpty_append A _ m ip hip]
    simp [fillFirstEmpty, emptyLease]

theorem get_setMacIp (L : List DynamicLease) (m : List Nat) (ip : Nat)
    (h : ∃ e ∈ L, e.mac = m) : get_dynamic_lease (setMacIp L m ip) m = ip := by
  induction L with
  | nil => simp at h
  | cons e es ih =>
    by_cases hm : e.mac = m
    · simp only [setMacIp, if_pos hm]
      rw [get_dynamic_lease_cons]
      simp [hm]
    · simp only [setMacIp, if_neg hm]
      rw [get_dynamic_lease_cons, if_neg hm]
      rcases h with ⟨x, hx, hxm⟩
      rcases List.mem_cons.1 hx with rfl | hx
      · exact absurd hxm hm
      · exact ih ⟨x, hx, hxm⟩

theorem get_fillFirstEmpty_cases (L : List DynamicLease) (m : List Nat) (ip : Nat)
    (h : ∀ e ∈ L, e.mac ≠ m) :
    get_dynamic_lease (fillFirstEmpty L m ip) m = ip ∨
    get_dynamic_lease (fillFirstEmpty L m ip) m = 0 := by
  induction L with
  | nil => right; rfl
  | cons e es ih =>
    by_cases he : e.ip = 0
    · left
      simp only [fillFirstEmpty, if_pos he]
      rw [get_dynamic_lease_cons]
      simp
    · simp only [fillFirstEmpty, if_neg he]
      rw [get_dynamic_lease_cons, if_neg (h e (by simp))]
      exact ih (fun x hx => h x (List.mem_cons_of_mem _ hx))

theorem get_set_dynamic_lease (L : List DynamicLease) (m : List Nat) (ip : Nat) :
    get_dynamic_lease (set_dynamic_lease L m ip) m = ip ∨
    get_dynamic_lease (set_dynamic_lease L m ip) m = get_dynamic_lease L m := by
  unfold set_dynamic_lease
  by_cases hany : L.any (fun e => e.mac == m) = true
  · rw [hany, if_pos rfl]
    left
    refine get_setMacIp L m ip ?_
    rcases List.any_eq_true.1 hany with ⟨e, he, hm⟩
    exact ⟨e, he, by simpa using hm⟩
  · have hne : ∀ e ∈ L, e.mac ≠ m := by
      intro e he hm
      exact hany (List.any_eq_true.2 ⟨e, he, by simpa using hm⟩)
    rw [Bool.eq_false_iff.2 hany]
    simp only [Bool.false_eq_true, if_false]
    rcases get_fillFirstEmpty_cases L m ip hne with hc | hc
    · exact Or.inl hc
    · right
      rw [hc, get_dynamic_lease_eq_zero L m hne]

/-! # Case lemmas for `resolve` -/

theorem resolve_of_reserved (s : ServerState) (m : List Nat)
    (h : get_reserved_ip_for_client s.reservations m ≠ 0) :
    resolve s m = (get_reserved_ip_for_client s.reservations m, s) := by
  unfold resolve
  simp [h]

theorem resolve_of_lease (s : ServerState) (m : List Nat)
    (h0 : get_reserved_ip_for_client s.reservations m = 0)
    (h : get_dynamic_lease s.leases m ≠ 0) :
    resolve s m = (get_dynamic_lease s.leases m, s) := by
  unfold resolve
  simp [h0, h]

theorem resolve_of_mint (s : ServerState) (m : List Nat)
    (h0 : get_reserved_ip_for_client s.reservations m = 0)
    (h : get_dynamic_lease s.leases m = 0) :
    resolve s m = (s.cursor,
      { s with leases := set_dynamic_lease s.leases m s.cursor,
               cursor := (s.cursor + 1) % M32 }) := by
  unfold resolve
  simp [h0, h]

theorem resolve_reservations_const (s : ServerState) (m : List Nat) :
    ((resolve s m).2).reservations = s.reservations := by
  unfold resolve
  by_cases h : get_reserved_ip_for_client s.reservations m ≠ 0
  · simp [h]
  · by_cases h2 : get_dynamic_lease s.leases m ≠ 0 <;> simp [h, h2]

/-! # Claim C1 — out-of-bounds read in `get_dhcp_message_type` -/

/-- C1: the claim states that `get_dhcp_message_type` never reads a byte
at an index at or past the declared length and rejects a truncated TLV
with `-1`.  The code violates this: for the options buffer
`63 82 53 63 35 01` (hex) with declared length 6 — an option-53 TLV
whose 1-byte value lies exactly at the declared boundary — the function
returns the byte at index 6, one past the declared length (here `7`
respectively `3`, stale memory in the real packet buffer), instead of
the `-1` sentinel. -/
theorem C1_truncated_option53_read_past_length :
    get_dhcp_message_type [0x63, 0x82, 0x53, 0x63, 53, 1, 7] 6 = 7 ∧
    get_dhcp_message_type [0x63, 0x82, 0x53, 0x63, 53, 1, 3] 6 = 3 ∧
    (7 : Int) ≠ -1 ∧ (3 : Int) ≠ -1 := by decide

/-! # Claim C3 — reserved MACs -/

/-- C3 counterexample: a MAC that appears in the reservation table, but
with reserved address `0.0.0.0`, does **not** resolve to its
reservation's address: the reservation is ignored and a dynamic address
(`192.168.4.2`) is offered instead. -/
theorem C3_counterexample :
    sZeroResv.reservations.find? (fun r => r.mac == macR) =
      some { mac := macR, reserved_ip := 0 } ∧
    (resolve sZeroResv macR).1 = 3232236546 ∧
    (3232236546 : Nat) ≠ 0 := by decide

/-- C3 (amended): for every state and MAC whose **first** matching
reservation carries a non-zero address, resolution returns exactly that
address and leaves the state untouched — independently of the dynamic
lease table and cursor — and an immediate second resolution returns the
same address again. -/
theorem C3_reserved_takes_precedence (s : ServerState) (m : List Nat) (r : DhcpReservation)
    (hfind : s.reservations.find? (fun e => e.mac == m) = some r)
    (hip : r.reserved_ip ≠ 0) :
    resolve s m = (r.reserved_ip, s) ∧
    resolve ((resolve s m).2) m = (r.reserved_ip, s) := by
  have hres : get_reserved_ip_for_client s.reservations m = r.reserved_ip := by
    simp [get_reserved_ip_for_client, hfind]
  have h1 : resolve s m = (r.reserved_ip, s) := by
    rw [resolve_of_reserved s m (by rw [hres]; exact hip), hres]
  exact ⟨h1, by rw [h1]; exact h1⟩

/-- C3 witness: concrete instance of `C3_reserved_takes_precedence`. -/
theorem C3_reserved_takes_precedence_witness :
    resolve { reservations := [{ mac := macR, reserved_ip := 3232236850 }],
              leases := leases0, cursor := DHCP_DYNAMIC_START } macR =
      (3232236850,
       { reservations := [{ mac := macR, reserved_ip := 3232236850 }],
         leases := leases0, cursor := DHCP_DYNAMIC_START }) :=
  (C3_reserved_takes_precedence _ macR { mac := macR, reserved_ip := 3232236850 }
    (by decide) (by decide)).1

/-! # Claim C7 — idempotence of repeated resolution -/

set_option maxRecDepth 100000 in
/-- C7 counterexample: once the 32-slot dynamic table is full, a 33rd
fresh client's resolution is *not* recorded; resolving the same MAC
again immediately yields a **different** address (`192.168.4.34` then
`192.168.4.35` here) and advances the cursor again, so the claimed
idempotence fails on the code. -/
theorem C7_counterexample :
    (offeredSeq s0 (seq32 ++ [mac33, mac33])).getD 32 0 = 3232236578 ∧
    (offeredSeq s0 (seq32 ++ [mac33, mac33])).getD 33 0 = 3232236579 ∧
    (3232236578 : Nat) ≠ 3232236579 ∧
    runMacs s0 (seq32 ++ [mac33, mac33]) ≠ runMacs s0 (seq32 ++ [mac33]) := by decide

/-- C7 (amended): resolving a MAC twice in a row yields the identical
address and the second resolution has no side effect, **provided** the
first resolution is actually on record afterwards — the MAC has a
non-zero reservation or a live dynamic lease entry (which fails only
when the first resolution minted into a full table, or minted the
address `0`). -/
theorem C7_idempotent_when_recorded (s : ServerState) (m : List Nat)
    (h : get_reserved_ip_for_client ((resolve s m).2).reservations m ≠ 0 ∨
         get_dynamic_lease ((resolve s m).2).leases m ≠ 0) :
    resolve ((resolve s m).2) m = resolve s m := by
  by_cases hr : get_reserved_ip_for_client s.reservations m = 0
  · by_cases hd : get_dynamic_lease s.leases m = 0
    · have h1 := resolve_of_mint s m hr hd
      rw [h1] at h ⊢
      rcases h with h | h
      · exact absurd hr (by simpa using h)
      · simp only at h ⊢
        rcases get_set_dynamic_lease s.leases m s.cursor with hg | hg
        · rw [resolve_of_lease _ m (by simpa using hr) (by simpa [hg] using h), hg]
        · rw [hg, hd] at h
          exact absurd rfl h
    · have h1 := resolve_of_lease s m hr hd
      rw [h1]
      exact resolve_of_lease s m hr hd
  · have h1 := resolve_of_reserved s m hr
    rw [h1]
    exact resolve_of_reserved s m hr
/-- C7 witness: concrete instance of `C7_idempotent_when_recorded`. -/
theorem C7_idempotent_when_recorded_witness :
    resolve ((resolve s0 [1, 2, 3, 4, 5, 6]).2) [1, 2, 3, 4, 5, 6] =
      resolve s0 [1, 2, 3, 4, 5, 6] :=
  C7_idempotent_when_recorded s0 [1, 2, 3, 4, 5, 6] (Or.inr (by decide))

/-! # Claim C8 — duplicate MACs in the reservation source -/

/-- C8 counterexample: loading an input with two well-formed entries
for the same MAC stores **both** — the resulting table has two entries
sharing a 6-byte MAC, so neither last-write-wins nor rejection
happens. -/
theorem C8_counterexample :
    load_dhcp_reservations dupInput =
      [{ mac := macD, reserved_ip := 3232236600 },
       { mac := macD, reserved_ip := 3232236700 }] ∧
    ¬ List.Pairwise (fun a b => a.mac ≠ b.mac) (load_dhcp_reservations dupInput) := by
  decide

/-- C8 (amended): the loader stores, in source order, exactly the
well-formed entries (those whose MAC and IP strings parse), truncated
to the 10-entry capacity; duplicate MACs are all retained
(first-match-wins lookup then makes the earliest one govern). -/
theorem C8_loader_keeps_duplicates (input : List ResvInput) :
    load_dhcp_reservations input =
      (input.filterMap fun e =>
        match e.mac, e.ip with
        | some m, some i => some ({ mac := m, reserved_ip := i } : DhcpReservation)
        | _, _ => none).take 10 := by
  show loadResvLoop input 10 = _
  generalize 10 = cap
  induction input generalizing cap with
  | nil => simp [loadResvLoop]
  | cons e es ih =>
    match cap with
    | 0 => simp [loadResvLoop]
    | cap + 1 =>
      rcases hm : e.mac with _ | m <;> rcases hi : e.ip with _ | i <;>
        simp [loadResvLoop, hm, hi, List.filterMap_cons, ih]

/-! # Claim C9 — dynamic lease table exhaustion -/

set_option maxRecDepth 100000 in
/-- C9: with the dynamic table full (all 32 slots live, a state reached
from startup by 32 fresh clients) and a 33rd fresh client arriving, the
code does exactly what the claim forbids: it offers the cursor value,
advances the cursor, and leaves the lease table untouched (the lease is
never recorded), with no error path — capacity exhaustion is silent. -/
theorem C9_capacity_exhaustion_is_silent :
    runMacs s0 seq32 = sFull ∧
    (∀ e ∈ L32, e.ip ≠ 0) ∧
    get_reserved_ip_for_client sFull.reservations mac33 = 0 ∧
    get_dynamic_lease L32 mac33 = 0 ∧
    resolve sFull mac33 =
      (3232236578, { reservations := [], leases := L32, cursor := 3232236579 }) := by
  decide

/-! # Claim C10 — first-match reservation lookup -/

theorem get_reserved_cons (r : DhcpReservation) (rs : List DhcpReservation) (m : List Nat) :
    get_reserved_ip_for_client (r :: rs) m =
      if r.mac = m then r.reserved_ip else get_reserved_ip_for_client rs m := by
  by_cases h : r.mac = m <;> simp [get_reserved_ip_for_client, h]

/-- C10: (i) `get_reserved_ip_for_client` returns the address of the
lowest-index entry whose MAC matches; (ii) with no matching entry it
returns the sentinel `0.0.0.0`; (iii) when the first matching entry's
address is `0.0.0.0`, resolution proceeds exactly as if the MAC were
absent from the table (same offered address, same lease table, same
cursor); (iv) the loader stores duplicate MACs verbatim, and the
earliest-loaded one governs the lookup. -/
theorem C10_first_match_wins :
    (∀ (t : List DhcpReservation) (m : List Nat) (i : Nat) (hi : i < t.length),
      (∀ (j : Nat) (hj : j < i), (t.get ⟨j, Nat.lt_trans hj hi⟩).mac ≠ m) →
      (t.get ⟨i, hi⟩).mac = m →
      get_reserved_ip_for_client t m = (t.get ⟨i, hi⟩).reserved_ip) ∧
    (∀ (t : List DhcpReservation) (m : List Nat),
      (∀ e ∈ t, e.mac ≠ m) → get_reserved_ip_for_client t m = 0) ∧
    (∀ (t : List DhcpReservation) (m : List Nat) (l : List DynamicLease) (c : Nat)
      (r : DhcpReservation),
      t.find? (fun e => e.mac == m) = some r → r.reserved_ip = 0 →
      resolve { reservations := t, leases := l, cursor := c } m =
        ((resolve { reservations := [], leases := l, cursor := c } m).1,
         { reservations := t,
           leases := ((resolve { reservations := [], leases := l, cursor := c } m).2).leases,
           cursor := ((resolve { reservations := [], leases := l, cursor := c } m).2).cursor })) ∧
    (load_dhcp_reservations dupInput).length = 2 ∧
    get_reserved_ip_for_client (load_dhcp_reservations dupInput) macD = 3232236600 := by
  refine ⟨?_, ?_, ?_, by decide, by decide⟩
  · intro t
    induction t with
    | nil => intro m i hi; exact absurd hi (Nat.not_lt_zero i)
    | cons e es ih =>
      intro m i hi hprev hcur
      cases i with
      | zero =>
        have hcur' : e.mac = m := hcur
        rw [get_reserved_cons, if_pos hcur']
        rfl
      | succ i =>
        have he : e.mac ≠ m := hprev 0 (Nat.succ_pos i)
        rw [get_reserved_cons, if_neg he]
        exact ih m i (Nat.lt_of_succ_lt_succ hi)
          (fun j hj => hprev (j + 1) (Nat.succ_lt_succ hj)) hcur
  · intro t m h
    have hn : t.find? (fun e => e.mac == m) = none :=
      List.find?_eq_none.2 (by simpa using h)
    simp [get_reserved_ip_for_client, hn]
  · intro t m l c r hfind hzero
    have ht : get_reserved_ip_for_client t m = 0 := by
      simp [get_reserved_ip_for_client, hfind, hzero]
    have h0 : get_reserved_ip_for_client ([] : List DhcpReservation) m = 0 := rfl
    by_cases hd : get_dynamic_lease l m = 0
    · rw [resolve_of_mint { reservations := t, leases := l, cursor := c } m ht hd,
          resolve_of_mint { reservations := [], leases := l, cursor := c } m h0 hd]
    · rw [resolve_of_lease { reservations := t, leases := l, cursor := c } m ht hd,
          resolve_of_lease { reservations := [], leases := l, cursor := c } m h0 hd]

/-- C10 witness: concrete instances of the three quantified parts of
`C10_first_match_wins`. -/
theorem C10_first_match_wins_witness :
    get_reserved_ip_for_client
      [{ mac := macD, reserved_ip := 7 }, { mac := macD, reserved_ip := 9 }] macD = 7 ∧
    get_reserved_ip_for_client [{ mac := macD, reserved_ip := 7 }] macR = 0 ∧
    resolve { reservations := [{ mac := macR, reserved_ip := 0 }], leases := leases0,
              cursor := DHCP_DYNAMIC_START } macR =
      ((resolve { reservations := [], leases := leases0,
                  cursor := DHCP_DYNAMIC_START } macR).1,
       { reservations := [{ mac := macR, reserved_ip := 0 }],
         leases := ((resolve { reservations := [], leases := leases0,
                               cursor := DHCP_DYNAMIC_START } macR).2).leases,
         cursor := ((resolve { reservations := [], leases := leases0,
                               cursor := DHCP_DYNAMIC_START } macR).2).cursor }) := by
  obtain ⟨ha, hb, hc, -, -⟩ := C10_first_match_wins
  refine ⟨?_, ?_, ?_⟩
  · exact ha [{ mac := macD, reserved_ip := 7 }, { mac := macD, reserved_ip := 9 }] macD 0
      (by decide) (fun j hj => absurd hj (Nat.not_lt_zero j)) (by decide)
  · exact hb [{ mac := macD, reserved_ip := 7 }] macR (by decide)
  · exact hc [{ mac := macR, reserved_ip := 0 }] macR leases0 DHCP_DYNAMIC_START
      { mac := macR, reserved_ip := 0 } (by decide) rfl

/-! # Claim C4 — the reply builder -/

/-- C4: `build_dhcp_reply` sets `op = 2` and `yiaddr` to the offered
address, copies `htype`, `hlen`, `xid` and the full 16-byte `chaddr`
from the request, and emits after the magic cookie exactly the option
sequence 61 (client id, type 1 + 6 MAC bytes), 53 (message type),
54 (server id `192.168.4.1`), 51 (lease 3600 s), 58 (renewal 1800 s),
59 (rebinding 3150 s), 1 (mask `255.255.255.0`), 3 (router), 6 (DNS
`8.8.8.8`), 255 (end), in that order.  Being a pure function of the
three inputs, the builder is deterministic: equal inputs give a
byte-identical reply. -/
theorem C4_build_reply_fields (request : DhcpPacket) (offered_ip dhcp_msg_type : Nat) :
    (build_dhcp_reply request offered_ip dhcp_msg_type).op = 2 ∧
    (build_dhcp_reply request offered_ip dhcp_msg_type).yiaddr = offered_ip ∧
    (build_dhcp_reply request offered_ip dhcp_msg_type).htype = request.htype ∧
    (build_dhcp_reply request offered_ip dhcp_msg_type).hlen = request.hlen ∧
    (build_dhcp_reply request offered_ip dhcp_msg_type).xid = request.xid ∧
    (build_dhcp_reply request offered_ip dhcp_msg_type).chaddr = request.chaddr ∧
    (build_dhcp_reply request offered_ip dhcp_msg_type).options =
      [0x63, 0x82, 0x53, 0x63,
       61, 7, 1] ++ request.chaddr.take 6 ++
      [53, 1, dhcp_msg_type,
       54, 4, 192, 168, 4, 1,
       51, 4, 0, 0, 14, 16,
       58, 4, 0, 0, 7, 8,
       59, 4, 0, 0, 12, 78,
       1, 4, 255, 255, 255, 0,
       3, 4, 192, 168, 4, 1,
       6, 4, 8, 8, 8, 8,
       255] := by
  refine ⟨rfl, rfl, rfl, rfl, rfl, rfl, ?_⟩
  simp [build_dhcp_reply, replyOptions, be32, ipBytes]

/-! # Claim C6 — transmitted length floor and broadcast flag -/

theorem ge_300_of_floor (a : Nat) : 300 ≤ if a < 300 then 300 else a := by
  split <;> omega

/-- C6: every reply the loop actually transmits has total length at
least 300 bytes (the builder's `236 + 59 = 295` is raised to the floor
by the caller, lines 525-527) and carries the broadcast flag `0x8000`
forced at line 524, regardless of the request's flags. -/
theorem C6_reply_floor_and_broadcast (s : ServerState) (len : Nat) (p : DhcpPacket)
    (reply : DhcpPacket) (reply_len offered : Nat) (s' : ServerState)
    (h : handle_packet s len p = some (reply, reply_len, offered, s')) :
    300 ≤ reply_len ∧ reply.flags = 0x8000 := by
  simp only [handle_packet] at h
  split at h
  · simp at h
  split at h
  · simp at h
  rw [Option.some.injEq, Prod.mk.injEq, Prod.mk.injEq, Prod.mk.injEq] at h
  obtain ⟨h1, h2, -, -⟩ := h
  subst h1
  subst h2
  exact ⟨ge_300_of_floor _, rfl⟩

/-- C6 witness: a concrete DISCOVER exchange transmitted with length
exactly 300 and the broadcast flag set. -/
theorem C6_reply_floor_and_broadcast_witness :
    300 ≤ 300 ∧ replyW.flags = 0x8000 :=
  C6_reply_floor_and_broadcast s0 243 pktW replyW 300 3232236546 stateW (by decide)

/-! # Claim C5 — OFFER if and only if DISCOVER -/

theorem exists_six_head : ∀ (l : List Nat), 6 ≤ l.length →
    ∃ a b c d e f r, l = a :: b :: c :: d :: e :: f :: r
  | a :: b :: c :: d :: e :: f :: r, _ => ⟨a, b, c, d, e, f, r, rfl⟩
  | [], h | [_], h | [_, _], h | [_, _, _], h | [_, _, _, _], h | [_, _, _, _, _], h => by
    simp at h

set_option maxHeartbeats 2000000 in
/-- Parsing the options area that `build_dhcp_reply` emits recovers the
message type it was given: option 53 sits after the 13-byte prefix
(cookie plus client-identifier echo) and the parser returns its
value. -/
theorem parse_replyOptions (ch : List Nat) (t : Nat) (h : ch.length = 6) :
    get_dhcp_message_type (replyOptions ch t) ((replyOptions ch t).length) = (t : Int) := by
  obtain ⟨a, b, c, d, e, f, r, rfl⟩ := exists_six_head ch (by omega)
  have hr : r = [] := by
    have : r.length = 0 := by simpa using h
    simpa using this
  subst hr
  rfl

/-- C5: whenever the loop answers a decoded request, the transmitted
reply carries message type OFFER (2) exactly when the decoded request
type is DISCOVER (1), and every other decoded type is answered with
ACK (5).  The reply's message type is read back with the same option
parser applied to the reply's options area. -/
theorem C5_offer_iff_discover (s : ServerState) (len : Nat) (p : DhcpPacket)
    (reply : DhcpPacket) (reply_len offered : Nat) (s' : ServerState)
    (hch : p.chaddr.length = 16)
    (h : handle_packet s len p = some (reply, reply_len, offered, s')) :
    (get_dhcp_message_type reply.options reply.options.length = 2 ↔
      get_dhcp_message_type p.options (len - 236) = 1) ∧
    (get_dhcp_message_type p.options (len - 236) ≠ 1 →
      get_dhcp_message_type reply.options reply.options.length = 5) := by
  simp only [handle_packet] at h
  split at h
  · simp at h
  split at h
  · simp at h
  rw [Option.some.injEq, Prod.mk.injEq, Prod.mk.injEq, Prod.mk.injEq] at h
  obtain ⟨h1, -, -, -⟩ := h
  subst h1
  have htake : (p.chaddr.take 6).length = 6 := by
    simp [List.length_take, hch]
  show
    (get_dhcp_message_type
        (replyOptions (p.chaddr.take 6)
          (if get_dhcp_message_type p.options (len - 236) = 1 then 2 else 5))
        ((replyOptions (p.chaddr.take 6)
          (if get_dhcp_message_type p.options (len - 236) = 1 then 2 else 5)).length) = 2 ↔
      get_dhcp_message_type p.options (len - 236) = 1) ∧
    (get_dhcp_message_type p.options (len - 236) ≠ 1 →
      get_dhcp_message_type
        (replyOptions (p.chaddr.take 6)
          (if get_dhcp_message_type p.options (len - 236) = 1 then 2 else 5))
        ((replyOptions (p.chaddr.take 6)
          (if get_dhcp_message_type p.options (len - 236) = 1 then 2 else 5)).length) = 5)
  by_cases hm : get_dhcp_message_type p.options (len - 236) = 1
  · simp only [if_pos hm]
    rw [parse_replyOptions (p.chaddr.take 6) 2 htake]
    constructor
    · simp [hm]
    · intro hn; exact absurd hm hn
  · simp only [if_neg hm]
    rw [parse_replyOptions (p.chaddr.take 6) 5 htake]
    constructor
    · constructor
      · intro h5; norm_num at h5
      · intro h1; exact absurd h1 hm
    · intro _; norm_num

/-- C5 witness: the concrete DISCOVER exchange of `pktW`. -/
theorem C5_offer_iff_discover_witness :
    (get_dhcp_message_type replyW.options replyW.options.length = 2 ↔
      get_dhcp_message_type pktW.options (243 - 236) = 1) ∧
    (get_dhcp_message_type pktW.options (243 - 236) ≠ 1 →
      get_dhcp_message_type replyW.options replyW.options.length = 5) :=
  C5_offer_iff_discover s0 243 pktW replyW 300 3232236546 stateW (by decide) (by decide)

/-! # Claim C2 — invariants of the lease engine -/

theorem InvK_s0 : InvK s0 0 := by
  refine ⟨rfl, [], rfl, rfl, List.nodup_nil, ?_, rfl⟩
  show DHCP_DYNAMIC_START = (DHCP_DYNAMIC_START + 0) % M32
  norm_num [DHCP_DYNAMIC_START, M32]

theorem get_append_of_mem (A B : List DynamicLease) (m : List Nat)
    (hmem : ∃ e ∈ A, e.mac = m) :
    get_dynamic_lease (A ++ B) m = get_dynamic_lease A m := by
  induction A with
  | nil => simp at hmem
  | cons e es ih =>
    rw [List.cons_append, get_dynamic_lease_cons, get_dynamic_lease_cons]
    by_cases he : e.mac = m
    · rw [if_pos he, if_pos he]
    · rw [if_neg he, if_neg he]
      rcases hmem with ⟨x, hx, hxm⟩
      rcases List.mem_cons.1 hx with rfl | hx
      · exact absurd hxm he
      · exact ih ⟨x, hx, hxm⟩

theorem resolve_no_mint (s : ServerState) (m : List Nat) (h : ¬ isMint s m) :
    (resolve s m).2 = s := by
  unfold isMint at h
  push_neg at h
  by_cases hr : get_reserved_ip_for_client s.reservations m = 0
  · rw [resolve_of_lease s m hr (h hr)]
  · rw [resolve_of_reserved s m hr]

/-- One mint step preserves the reachability invariant and hands out
exactly the cursor value `(seed + k) % 2 ^ 32`. -/
theorem InvK_mint (s : ServerState) (k : Nat) (m : List Nat)
    (hInv : InvK s k) (hm : isMint s m) :
    (resolve s m).1 = (DHCP_DYNAMIC_START + k) % M32 ∧ InvK (resolve s m).2 (k + 1) := by
  obtain ⟨hres, live, hlen, hips, hmacs, hcur, hsh⟩ := hInv
  obtain ⟨hm1, hm2⟩ := hm
  have hlive : ∀ e ∈ live, e.ip ≠ 0 := by
    intro e he
    have hmem : e.ip ∈ live.map (fun e => e.ip) := List.mem_map_of_mem _ he
    rw [hips] at hmem
    have hb := List.mem_range'_1.1 hmem
    have hpos : 0 < DHCP_DYNAMIC_START := by norm_num [DHCP_DYNAMIC_START]
    omega
  have hnotmem : ∀ e ∈ live, e.mac ≠ m := by
    intro e he hmac
    rw [hsh, get_append_of_mem live _ m ⟨e, he, hmac⟩] at hm2
    exact mac_ne_of_get_eq_zero live m hlive hm2 e he hmac
  rw [resolve_of_mint s m hm1 hm2]
  refine ⟨hcur, hres, ?_⟩
  by_cases hk : k < 32
  · have hlen' : live.length = k := by rw [hlen]; omega
    have hcv : s.cursor = DHCP_DYNAMIC_START + k := by
      rw [hcur]
      apply Nat.mod_eq_of_lt
      norm_num [DHCP_DYNAMIC_START, M32]
      omega
    have hrep : 32 - live.length = (32 - k - 1) + 1 := by omega
    have hset : set_dynamic_lease s.leases m s.cursor =
        live ++ ({ mac := m, ip := s.cursor } : DynamicLease) :: List.replicate (32 - k - 1) emptyLease := by
      rw [hsh, hrep]
      exact set_dynamic_lease_shape live (32 - k - 1) m s.cursor hnotmem hlive
    refine ⟨live ++ [{ mac := m, ip := s.cursor }], ?_, ?_, ?_, ?_, ?_⟩
    · simp [hlen']
      omega
    · rw [List.map_append, hips, hlen']
      simp only [List.map_cons, List.map_nil, List.length_append, List.length_map,
        List.length_singleton, hlen']
      rw [hcv, List.range'_concat]
      simp
    · rw [List.map_append]
      simp only [List.map_cons, List.map_nil]
      rw [List.nodup_append]
      refine ⟨hmacs, List.nodup_singleton m, ?_⟩
      intro x hx
      rcases List.mem_map.1 hx with ⟨e, he, hme⟩
      simp only [List.mem_singleton]
      intro hxm
      exact hnotmem e he (by rw [hme, hxm])
    · show (s.cursor + 1) % M32 = (DHCP_DYNAMIC_START + (k + 1)) % M32
      rw [hcv, Nat.add_assoc]
    · show set_dynamic_lease s.leases m s.cursor =
        (live ++ [({ mac := m, ip := s.cursor } : DynamicLease)]) ++
          List.replicate
            (32 - (live ++ [({ mac := m, ip := s.cursor } : DynamicLease)]).length) emptyLease
      rw [hset]
      have hc : (32 : Nat) - (live ++ [({ mac := m, ip := s.cursor } : DynamicLease)]).length
          = 32 - k - 1 := by
        simp only [List.length_append, List.length_singleton, hlen']
        omega
      rw [hc, List.append_assoc]
      rfl
  · have hlen' : live.length = 32 := by rw [hlen]; omega
    have hfull : s.leases = live := by rw [hsh, hlen']; simp
    have hset : set_dynamic_lease s.leases m s.cursor = s.leases := by
      rw [hfull]
      exact set_dynamic_lease_full live m s.cursor hnotmem hlive
    refine ⟨live, ?_, hips, hmacs, ?_, ?_⟩
    · rw [hlen']; omega
    · show (s.cursor + 1) % M32 = (DHCP_DYNAMIC_START + (k + 1)) % M32
      rw [hcur]
      simp only [M32]
      omega
    · show set_dynamic_lease s.leases m s.cursor =
        live ++ List.replicate (32 - live.length) emptyLease
      rw [hset, hfull, hlen']
      simp

/-- Along any run, the invariant is maintained with `k` advanced by the
number of mints, and the minted values are exactly the consecutive
cursor values `(seed + k) % 2 ^ 32, (seed + k + 1) % 2 ^ 32, …`. -/
theorem run_char (ms : List (List Nat)) : ∀ (s : ServerState) (k : Nat), InvK s k →
    InvK (runMacs s ms) (k + mintCount s ms) ∧
    mintedValues s ms = (List.range' k (mintCount s ms)).map
      (fun j => (DHCP_DYNAMIC_START + j) % M32) := by
  induction ms with
  | nil =>
    intro s k h
    exact ⟨by simpa [runMacs, mintCount] using h, by simp [mintedValues, mintCount]⟩
  | cons m ms ih =>
    intro s k h
    by_cases hm : isMint s m
    · obtain ⟨hoff, hInv'⟩ := InvK_mint s k m h hm
      obtain ⟨ih1, ih2⟩ := ih (resolve s m).2 (k + 1) hInv'
      have hmc : mintCount s (m :: ms) = mintCount (resolve s m).2 ms + 1 := by
        simp only [mintCount, if_pos hm]
        omega
      constructor
      · show InvK (runMacs (resolve s m).2 ms) (k + mintCount s (m :: ms))
        rw [hmc, show k + (mintCount (resolve s m).2 ms + 1) =
          (k + 1) + mintCount (resolve s m).2 ms from by omega]
        exact ih1
      · show mintedValues s (m :: ms) = _
        simp only [mintedValues, if_pos hm]
        rw [ih2, hoff, hmc, List.range'_succ]
        simp
    · have hs := resolve_no_mint s m hm
      have hmc : mintCount s (m :: ms) = mintCount s ms := by
        simp only [mintCount, if_neg hm, hs]
        omega
      obtain ⟨ih1, ih2⟩ := ih s k h
      constructor
      · show InvK (runMacs (resolve s m).2 ms) (k + mintCount s (m :: ms))
        rw [hs, hmc]
        exact ih1
      · show mintedValues s (m :: ms) = _
        simp only [mintedValues, if_neg hm]
        rw [hs, hmc]
        exact ih2

theorem InvK_pairwise (s : ServerState) (k : Nat) (h : InvK s k) :
    List.Pairwise (fun a b => a.ip ≠ 0 → b.ip ≠ 0 → a.mac ≠ b.mac ∧ a.ip ≠ b.ip)
      s.leases := by
  obtain ⟨-, live, -, hips, hmacs, -, hsh⟩ := h
  rw [hsh, List.pairwise_append]
  refine ⟨?_, ?_, ?_⟩
  · have hmacP : List.Pairwise (fun a b : DynamicLease => a.mac ≠ b.mac) live :=
      List.pairwise_map.1 hmacs
    have hipP : List.Pairwise (fun a b : DynamicLease => a.ip < b.ip) live := by
      refine List.pairwise_map.1 ?_
      rw [hips]
      exact List.pairwise_lt_range' _ _
    exact (hmacP.and hipP).imp (fun hab _ _ => ⟨hab.1, Nat.ne_of_lt hab.2⟩)
  · refine List.pairwise_replicate.2 (Or.inr ?_)
    intro h1
    exact absurd rfl h1
  · intro a _ b hb h1 h2
    rw [List.eq_of_mem_replicate hb] at h2
    exact absurd rfl h2

theorem setMacIp_preserves (L : List DynamicLease) (m : List Nat) (ip : Nat)
    (e : DynamicLease) (he : e ∈ L) (hip : e.ip ≠ 0)
    (hget : get_dynamic_lease L m = 0) : e ∈ setMacIp L m ip := by
  induction L with
  | nil => simp at he
  | cons a as ih =>
    rw [get_dynamic_lease_cons] at hget
    by_cases ha : a.mac = m
    · rw [if_pos ha] at hget
      simp only [setMacIp, if_pos ha]
      rcases List.mem_cons.1 he with rfl | he
      · exact absurd hget hip
      · exact List.mem_cons_of_mem _ he
    · rw [if_neg ha] at hget
      simp only [setMacIp, if_neg ha]
      rcases List.mem_cons.1 he with rfl | he
      · exact List.mem_cons_self _ _
      · exact List.mem_cons_of_mem _ (ih he hget)

theorem fillFirstEmpty_preserves (L : List DynamicLease) (m : List Nat) (ip : Nat)
    (e : DynamicLease) (he : e ∈ L) (hip : e.ip ≠ 0) : e ∈ fillFirstEmpty L m ip := by
  induction L with
  | nil => simp at he
  | cons a as ih =>
    by_cases ha : a.ip = 0
    · simp only [fillFirstEmpty, if_pos ha]
      rcases List.mem_cons.1 he with rfl | he
      · exact absurd ha hip
      · exact List.mem_cons_of_mem _ he
    · simp only [fillFirstEmpty, if_neg ha]
      rcases List.mem_cons.1 he with rfl | he
      · exact List.mem_cons_self _ _
      · exact List.mem_cons_of_mem _ (ih he)

theorem set_dynamic_lease_preserves (L : List DynamicLease) (m : List Nat) (ip : Nat)
    (e : DynamicLease) (he : e ∈ L) (hip : e.ip ≠ 0)
    (hget : get_dynamic_lease L m = 0) : e ∈ set_dynamic_lease L m ip := by
  unfold set_dynamic_lease
  split
  · exact setMacIp_preserves L m ip e he hip hget
  · exact fillFirstEmpty_preserves L m ip e he hip

/-- A live lease entry survives any further resolution unchanged. -/
theorem resolve_preserves_live (s : ServerState) (m : List Nat) (e : DynamicLease)
    (he : e ∈ s.leases) (hip : e.ip ≠ 0) : e ∈ ((resolve s m).2).leases := by
  by_cases hm : isMint s m
  · rw [resolve_of_mint s m hm.1 hm.2]
    exact set_dynamic_lease_preserves _ _ _ e he hip hm.2
  · rw [resolve_no_mint s m hm]
    exact he

/-- C2 (amended): starting from the empty lease table and the cursor
seed, after any sequence of resolutions (1) no two live entries share a
MAC; (2) a resolution finding neither a reservation nor a live lease
offers exactly the current cursor value; (2') the minted values are
strictly increasing **as long as the total number of mints stays below
`2 ^ 32 − seed`** — the 32-bit cursor wraps around beyond that (see the
counterexample); (3) no two live entries share an IP, and a live entry
is never removed or rewritten by later resolutions. -/
theorem C2_lease_invariants (ms : List (List Nat)) :
    List.Pairwise (fun a b => a.ip ≠ 0 → b.ip ≠ 0 → a.mac ≠ b.mac ∧ a.ip ≠ b.ip)
      (runMacs s0 ms).leases ∧
    (∀ m, get_reserved_ip_for_client (runMacs s0 ms).reservations m = 0 →
      get_dynamic_lease (runMacs s0 ms).leases m = 0 →
      (resolve (runMacs s0 ms) m).1 = (runMacs s0 ms).cursor) ∧
    (DHCP_DYNAMIC_START + mintCount s0 ms ≤ M32 →
      List.Sorted (· < ·) (mintedValues s0 ms)) ∧
    (∀ (m : List Nat), ∀ e ∈ (runMacs s0 ms).leases, e.ip ≠ 0 →
      e ∈ ((resolve (runMacs s0 ms) m).2).leases) := by
  obtain ⟨hInv, hminted⟩ := run_char ms s0 0 InvK_s0
  refine ⟨InvK_pairwise _ _ hInv, ?_, ?_, ?_⟩
  · intro m h1 h2
    rw [resolve_of_mint (runMacs s0 ms) m h1 h2]
  · intro hle
    rw [hminted]
    have hid : ∀ j ∈ List.range' 0 (mintCount s0 ms),
        (DHCP_DYNAMIC_START + j) % M32 = DHCP_DYNAMIC_START + j := by
      intro j hj
      have hb := List.mem_range'_1.1 hj
      apply Nat.mod_eq_of_lt
      omega
    rw [List.map_congr_left hid]
    refine List.pairwise_map.2 ?_
    exact (List.pairwise_lt_range' 0 _).imp (fun hab => Nat.add_lt_add_left hab _)
  · intro m e he hip
    exact resolve_preserves_live _ m e he hip

/-- C2 witness: a one-step run instantiating every part of
`C2_lease_invariants`. -/
theorem C2_lease_invariants_witness :
    List.Pairwise (fun a b => a.ip ≠ 0 → b.ip ≠ 0 → a.mac ≠ b.mac ∧ a.ip ≠ b.ip)
      (runMacs s0 [[1, 2, 3, 4, 5, 6]]).leases ∧
    (resolve (runMacs s0 [[1, 2, 3, 4, 5, 6]]) [9, 9, 9, 9, 9, 9]).1 =
      (runMacs s0 [[1, 2, 3, 4, 5, 6]]).cursor ∧
    List.Sorted (· < ·) (mintedValues s0 [[1, 2, 3, 4, 5, 6]]) ∧
    ({ mac := [1, 2, 3, 4, 5, 6], ip := DHCP_DYNAMIC_START } : DynamicLease) ∈
      ((resolve (runMacs s0 [[1, 2, 3, 4, 5, 6]]) [9, 9, 9, 9, 9, 9]).2).leases := by
  obtain ⟨h1, h2, h3, h4⟩ := C2_lease_invariants [[1, 2, 3, 4, 5, 6]]
  exact ⟨h1, h2 [9, 9, 9, 9, 9, 9] (by decide) (by decide), h3 (by decide),
    h4 [9, 9, 9, 9, 9, 9] { mac := [1, 2, 3, 4, 5, 6], ip := DHCP_DYNAMIC_START }
      (by decide) (by decide)⟩

/-! ## The cursor wraps around: counterexample machinery for C2 -/

theorem macOf_inj (a b : Nat) (ha : a < 1099511627776) (hb : b < 1099511627776)
    (h : macOf a = macOf b) : a = b := by
  simp only [macOf, List.cons.injEq, and_true] at h
  omega

theorem runMacs_append (l1 l2 : List (List Nat)) : ∀ s : ServerState,
    runMacs s (l1 ++ l2) = runMacs (runMacs s l1) l2 := by
  induction l1 with
  | nil => intro s; rfl
  | cons m ms ih => intro s; exact ih (resolve s m).2

theorem offeredSeq_append (l1 l2 : List (List Nat)) : ∀ s : ServerState,
    offeredSeq s (l1 ++ l2) = offeredSeq s l1 ++ offeredSeq (runMacs s l1) l2 := by
  induction l1 with
  | nil => intro s; rfl
  | cons m ms ih =>
    intro s
    show (resolve s m).1 :: offeredSeq (resolve s m).2 (ms ++ l2) = _
    rw [ih (resolve s m).2]
    rfl

theorem offeredSeq_length (ms : List (List Nat)) : ∀ s : ServerState,
    (offeredSeq s ms).length = ms.length := by
  induction ms with
  | nil => intro s; rfl
  | cons m ms ih =>
    intro s
    show ((resolve s m).1 :: offeredSeq (resolve s m).2 ms).length = ms.length + 1
    rw [List.length_cons, ih]

/-- Running any number of fresh clients against a **full** lease table
changes nothing but the cursor, which advances by one per step modulo
`2 ^ 32`; each step offers the then-current cursor value. -/
theorem runFull (ms : List (List Nat)) : ∀ (L : List DynamicLease) (c : Nat),
    (∀ e ∈ L, e.ip ≠ 0) → c < M32 →
    (∀ m ∈ ms, get_dynamic_lease L m = 0) →
    offeredSeq { reservations := [], leases := L, cursor := c } ms =
      (List.range ms.length).map (fun j => (c + j) % M32) ∧
    runMacs { reservations := [], leases := L, cursor := c } ms =
      { reservations := [], leases := L, cursor := (c + ms.length) % M32 } := by
  induction ms with
  | nil =>
    intro L c hL hc hm
    refine ⟨rfl, ?_⟩
    show _ = ServerState.mk [] L ((c + 0) % M32)
    rw [Nat.add_zero, Nat.mod_eq_of_lt hc]
    rfl
  | cons m ms ih =>
    intro L c hL hc hm
    have hr : get_reserved_ip_for_client
        ({ reservations := [], leases := L, cursor := c } : ServerState).reservations m = 0 := rfl
    have hd : get_dynamic_lease L m = 0 := hm m (List.mem_cons_self _ _)
    have hmac : ∀ e ∈ L, e.mac ≠ m := mac_ne_of_get_eq_zero L m hL hd
    have hres : resolve { reservations := [], leases := L, cursor := c } m =
        (c, { reservations := [], leases := L, cursor := (c + 1) % M32 }) := by
      rw [resolve_of_mint _ m hr hd]
      rw [show ({ reservations := [], leases := L, cursor := c } : ServerState).leases = L
        from rfl]
      rw [set_dynamic_lease_full L m _ hmac hL]
    obtain ⟨ih1, ih2⟩ := ih L ((c + 1) % M32) hL (Nat.mod_lt _ (by norm_num [M32]))
      (fun x hx => hm x (List.mem_cons_of_mem _ hx))
    constructor
    · show (resolve _ m).1 :: offeredSeq (resolve _ m).2 ms = _
      rw [hres]
      show c :: offeredSeq { reservations := [], leases := L, cursor := (c + 1) % M32 } ms = _
      rw [ih1, List.length_cons, List.range_succ_eq_map, List.map_cons, List.map_map]
      congr 1
      · rw [Nat.add_zero, Nat.mod_eq_of_lt hc]
      · refine List.map_congr_left ?_
        intro j _
        show ((c + 1) % M32 + j) % M32 = (c + (j + 1)) % M32
        simp only [M32]
        omega
    · show runMacs (resolve _ m).2 ms = _
      rw [hres]
      show runMacs { reservations := [], leases := L, cursor := (c + 1) % M32 } ms = _
      rw [ih2]
      have harith : ((c + 1) % M32 + ms.length) % M32 = (c + (m :: ms).length) % M32 := by
        rw [List.length_cons]
        simp only [M32]
        omega
      rw [harith]

theorem getD_map_range {α : Type} (n : Nat) (f : Nat → α) (i : Nat) (h : i < n) (d : α) :
    ((List.range n).map f).getD i d = f i := by
  rw [List.getD_eq_getElem?_getD, List.getElem?_map, List.getElem?_range h]
  rfl

theorem L32_live : ∀ e ∈ L32, e.ip ≠ 0 := by decide

theorem L32_mac_fresh (k : Nat) (hk : 32 ≤ k) (hk2 : k < 1099511627776) :
    get_dynamic_lease L32 (macOf k) = 0 := by
  refine get_dynamic_lease_eq_zero _ _ ?_
  intro e he
  rcases List.mem_map.1 he with ⟨j, hj, rfl⟩
  have hj32 : j < 32 := List.mem_range.1 hj
  intro h
  have := macOf_inj j k (by omega) hk2 h
  omega

theorem bigSeq_split :
    bigSeq = seq32 ++ (List.range wrapSteps).map (fun j => macOf (32 + j)) := by
  rw [bigSeq, List.range_add, List.map_append, List.map_map]
  rfl

set_option maxRecDepth 100000 in
theorem run_seq32 : runMacs s0 seq32 = sFull := by decide

/-- C2 counterexample: along the concrete run `bigSeq` of
`1 062 730 751` pairwise distinct, never-reserved clients starting from
the empty table, the client first seen at step `1 062 730 749` is
offered `4294967295` (`255.255.255.255`) and the distinct client first
seen at the next step is offered `0` — the cursor values handed to
distinct newly seen non-reserved MACs are **not** strictly increasing
(the 32-bit cursor wraps around), refuting part (2) of the claim as
stated. -/
theorem C2_counterexample :
    s0.reservations = [] ∧
    List.Nodup bigSeq ∧
    bigSeq.getD 1062730749 [] ≠ bigSeq.getD 1062730750 [] ∧
    (offeredSeq s0 bigSeq).getD 1062730749 0 = 4294967295 ∧
    (offeredSeq s0 bigSeq).getD 1062730750 0 = 0 ∧
    ¬ ((offeredSeq s0 bigSeq).getD 1062730749 0 <
        (offeredSeq s0 bigSeq).getD 1062730750 0) := by
  have hw : wrapSteps = 1062730719 := rfl
  have htail_fresh : ∀ m ∈ (List.range wrapSteps).map (fun j => macOf (32 + j)),
      get_dynamic_lease L32 m = 0 := by
    intro m hm
    rcases List.mem_map.1 hm with ⟨j, hj, rfl⟩
    have hjw : j < wrapSteps := List.mem_range.1 hj
    exact L32_mac_fresh (32 + j) (by omega) (by omega)
  obtain ⟨hoff, -⟩ := runFull ((List.range wrapSteps).map (fun j => macOf (32 + j)))
    L32 (DHCP_DYNAMIC_START + 32) L32_live
    (by norm_num [DHCP_DYNAMIC_START, M32]) htail_fresh
  have hsF : sFull =
      { reservations := [], leases := L32, cursor := DHCP_DYNAMIC_START + 32 } := rfl
  have hseq : offeredSeq s0 bigSeq =
      offeredSeq s0 seq32 ++
        offeredSeq { reservations := [], leases := L32, cursor := DHCP_DYNAMIC_START + 32 }
          ((List.range wrapSteps).map (fun j => macOf (32 + j))) := by
    rw [bigSeq_split, offeredSeq_append, run_seq32, hsF]
  have hlen1 : (offeredSeq s0 seq32).length = 32 := by
    rw [offeredSeq_length]
    rfl
  have hlen2 : ((List.range wrapSteps).map (fun j => macOf (32 + j))).length = wrapSteps := by
    rw [List.length_map, List.length_range]
  have hval : ∀ (i : Nat), i < wrapSteps →
      (offeredSeq s0 bigSeq).getD (32 + i) 0 = (DHCP_DYNAMIC_START + 32 + i) % M32 := by
    intro i hi
    rw [hseq, List.getD_append_right _ _ _ _ (by rw [hlen1]; omega), hlen1, hoff, hlen2]
    rw [show 32 + i - 32 = i from by omega]
    exact getD_map_range wrapSteps _ i hi 0
  have hv1 : (offeredSeq s0 bigSeq).getD 1062730749 0 = 4294967295 := by
    have := hval 1062730717 (by omega)
    rw [show (32 : Nat) + 1062730717 = 1062730749 from by omega] at this
    rw [this]
    norm_num [DHCP_DYNAMIC_START, M32]
  have hv2 : (offeredSeq s0 bigSeq).getD 1062730750 0 = 0 := by
    have := hval 1062730718 (by omega)
    rw [show (32 : Nat) + 1062730718 = 1062730750 from by omega] at this
    rw [this]
    norm_num [DHCP_DYNAMIC_START, M32]
  refine ⟨rfl, ?_, ?_, hv1, hv2, ?_⟩
  · rw [bigSeq]
    refine List.Nodup.map_on ?_ (List.nodup_range _)
    intro x hx y hy hxy
    have hxb : x < 32 + wrapSteps := List.mem_range.1 hx
    have hyb : y < 32 + wrapSteps := List.mem_range.1 hy
    exact macOf_inj x y (by omega) (by omega) hxy
  · rw [bigSeq, getD_map_range _ _ _ (by omega) [], getD_map_range _ _ _ (by omega) []]
    intro h
    have := macOf_inj 1062730749 1062730750 (by omega) (by omega) h
    omega
  · rw [hv1, hv2]
    omega
